import Mathlib

/-!
# Verification of the lighthouse slashing-protection interchange layer

Shallow embedding of:
* `validator_client/slashing_protection/src/lower_bound.rs` (`LowerBound`),
* `validator_client/slashing_protection/src/interchange.rs` (the interchange
  data model, `Interchange::equiv`, and the JSON parsing pipeline),
* the `quoted` integer (de)serializer from
  `consensus/types/src/utils/serde_utils.rs` (textually identical to
  `consensus/serde_utils/src/quoted.rs`).

Machine integers (`u64`) are modelled as `Nat`; every place where the u64
range matters carries an explicit `≤ U64_MAX` check, mirroring the overflow
check of Rust's `str::parse::<u64>`.  Rust byte strings are modelled as
`List Char` / `String`; all inputs of interest are ASCII, where Rust's byte
length coincides with the character count used here.
-/

/-- Maximum value of a Rust `u64`: `2^64 - 1`. -/
def U64_MAX : Nat := 2 ^ 64 - 1

/-- `Slot` (a `u64` newtype in `consensus/types`), modelled as `Nat`. -/
abbrev Slot := Nat

/-- `Epoch` (a `u64` newtype in `consensus/types`), modelled as `Nat`. -/
abbrev Epoch := Nat

/-- `Hash256` (32-byte root), modelled as its value as a `Nat` (< 2^256). -/
abbrev Hash256 := Nat

/-- Compressed BLS public key (48 bytes), modelled as a `Nat` (< 2^384). -/
abbrev PublicKey := Nat

/-! ## The derived `Ord` on `Option<u64>` and `cmp::max`

Rust's `#[derive(Ord)]` on `Option<T>` orders `None` below every `Some`,
and `Some x ≤ Some y ↔ x ≤ y`.  `cmp::max(a, b)` returns `b` when `a ≤ b`
and `a` otherwise (the second argument is returned on equality). -/

/-- The derived Rust ordering on `Option<u64>`: `None` is below everything. -/
def optionLe : Option Nat → Option Nat → Bool
  | none, _ => true
  | some _, none => false
  | some x, some y => x ≤ y

/-- Rust `cmp::max` on `Option<u64>` under the derived ordering. -/
def optionMax (a b : Option Nat) : Option Nat :=
  if optionLe a b then b else a

/-! ## `LowerBound` (`lower_bound.rs`) -/

/-- `LowerBound`: per-validator triple of optional maxima
(`lower_bound.rs`, lines 4–9). -/
structure LowerBound where
  block_proposal_slot : Option Slot
  attestation_source_epoch : Option Epoch
  attestation_target_epoch : Option Epoch
deriving DecidableEq, Repr

/-- `LowerBound::default()`: all three fields `None`. -/
def LowerBound.default : LowerBound :=
  { block_proposal_slot := none
    attestation_source_epoch := none
    attestation_target_epoch := none }

/-- `LowerBound::update` (`lower_bound.rs`, lines 11–24): fieldwise
`cmp::max` of the two bounds. -/
def LowerBound.update (self other : LowerBound) : LowerBound :=
  { block_proposal_slot :=
      optionMax self.block_proposal_slot other.block_proposal_slot
    attestation_source_epoch :=
      optionMax self.attestation_source_epoch other.attestation_source_epoch
    attestation_target_epoch :=
      optionMax self.attestation_target_epoch other.attestation_target_epoch }

/-- `r` is the maximum of `x` and `y` in the `None`-below-`Some` order:
it is one of the two and dominates both. -/
def IsMaxOf (r x y : Option Nat) : Prop :=
  (r = x ∨ r = y) ∧ optionLe x r = true ∧ optionLe y r = true

/-! ## Interchange data model (`interchange.rs`) -/

/-- `InterchangeFormat` (`interchange.rs`, lines 6–11), serde-renamed to
lowercase on the wire. -/
inductive InterchangeFormat where
  | Minimal
  | Complete
deriving DecidableEq, Repr

/-- `InterchangeMetadata` (`interchange.rs`, lines 13–20). -/
structure InterchangeMetadata where
  interchange_format : InterchangeFormat
  interchange_format_version : Nat
  genesis_validators_root : Hash256
deriving DecidableEq, Repr

/-- `MinimalInterchangeData` (`interchange.rs`, lines 22–29). -/
structure MinimalInterchangeData where
  pubkey : PublicKey
  last_signed_block_slot : Option Slot
  last_signed_attestation_source_epoch : Option Epoch
  last_signed_attestation_target_epoch : Option Epoch
deriving DecidableEq, Repr

/-- `SignedBlock` (`interchange.rs`, lines 39–44). -/
structure SignedBlock where
  slot : Slot
  signing_root : Option Hash256
deriving DecidableEq, Repr

/-- `SignedAttestation` (`interchange.rs`, lines 46–52). -/
structure SignedAttestation where
  source_epoch : Epoch
  target_epoch : Epoch
  signing_root : Option Hash256
deriving DecidableEq, Repr

/-- `CompleteInterchangeData` (`interchange.rs`, lines 31–37). -/
structure CompleteInterchangeData where
  pubkey : PublicKey
  signed_blocks : List SignedBlock
  signed_attestations : List SignedAttestation
deriving DecidableEq, Repr

/-- `InterchangeData` (`interchange.rs`, lines 54–60): untagged sum of the
two record-list shapes. -/
inductive InterchangeData where
  | Minimal (records : List MinimalInterchangeData)
  | Complete (records : List CompleteInterchangeData)
deriving DecidableEq, Repr

/-- `Interchange` (`interchange.rs`, lines 70–74). -/
structure Interchange where
  metadata : InterchangeMetadata
  data : InterchangeData
deriving DecidableEq, Repr

/-- Equality of the `HashSet`s built from two lists by `from_iter`:
Rust's `HashSet::eq` holds exactly when the two lists have the same
element *set* (each element of one occurs in the other), so duplicates
and ordering are invisible. -/
def listSetEq {α : Type} [DecidableEq α] (l1 l2 : List α) : Bool :=
  l1.all (fun x => l2.contains x) && l2.all (fun x => l1.contains x)

/-- `Interchange::equiv` (`interchange.rs`, lines 105–119): metadata
equality plus `HashSet` equality of the record lists for matching
variants; `false` across variants. -/
def Interchange.equiv (a b : Interchange) : Bool :=
  match a.data, b.data with
  | .Minimal m1, .Minimal m2 =>
      (a.metadata = b.metadata : Bool) && listSetEq m1 m2
  | .Complete c1, .Complete c2 =>
      (a.metadata = b.metadata : Bool) && listSetEq c1 c2
  | _, _ => false

/-- `Interchange::len` (`interchange.rs`, lines 121–127). -/
def Interchange.numRecords (i : Interchange) : Nat :=
  match i.data with
  | .Minimal m => m.length
  | .Complete c => c.length

/-- A shared metadata value for concrete examples. -/
def exMetadata : InterchangeMetadata :=
  { interchange_format := .Minimal
    interchange_format_version := 5
    genesis_validators_root := 66 }

/-- A concrete minimal record used in the C2 counterexample. -/
def exRecord : MinimalInterchangeData :=
  { pubkey := 1
    last_signed_block_slot := some 10
    last_signed_attestation_source_epoch := some 1
    last_signed_attestation_target_epoch := some 2 }

/-! ## Rust `str::parse::<u64>` and the `quoted` visitor (`serde_utils.rs`)

`u64::from_str` (via `from_str_radix` with radix 10) accepts an optional
leading `+`, then requires a non-empty run of decimal digits, accumulating
left-to-right with an overflow check against `u64::MAX`.  A leading `-`
falls through to the digit loop and is rejected as an invalid digit. -/

/-- Numeric value of a decimal digit character. -/
def digitVal (c : Char) : Nat := c.toNat - 48

/-- One step of decimal accumulation: `acc * 10 + digit`. -/
def decStep (acc : Nat) (c : Char) : Nat := acc * 10 + digitVal c

/-- Value of a digit string, most significant digit first. -/
def decimalVal (ds : List Char) : Nat := ds.foldl decStep 0

/-- The digit loop of `from_str_radix`: multiply-accumulate with the
`u64` overflow check (`checked_mul`/`checked_add`). -/
def parseU64Digits : List Char → Nat → Option Nat
  | [], acc => some acc
  | c :: cs, acc =>
    if c.isDigit then
      if acc * 10 + digitVal c ≤ U64_MAX then
        parseU64Digits cs (acc * 10 + digitVal c)
      else none
    else none

/-- Rust `str::parse::<u64>`: empty input is an error; a leading `+` is
stripped (the remainder must be non-empty); everything else goes to the
digit loop (so a leading `-` is rejected there as a non-digit). -/
def parseU64 (cs : List Char) : Option Nat :=
  match cs with
  | [] => none
  | c :: rest =>
    if c = '+' then
      if rest.isEmpty then none else parseU64Digits rest 0
    else parseU64Digits (c :: rest) 0

/-- The quote-stripping step of `QuotedIntVisitor::visit_str`
(`serde_utils.rs`, lines 284–295): when the input has length > 2 and both
starts and ends with a literal `"` character, the first and last
characters are removed. -/
def stripQuotes (cs : List Char) : List Char :=
  if 2 < cs.length ∧ cs.head? = some '"' ∧ cs.getLast? = some '"' then
    (cs.drop 1).dropLast
  else cs

/-- `QuotedIntVisitor::visit_str`: strip one embedded layer of quotes,
then `str::parse::<u64>`.  The identical visitor also appears in
`consensus/serde_utils/src/quoted.rs`, lines 14–25. -/
def QuotedIntVisitor.visit_str (s : String) : Option Nat :=
  parseU64 (stripQuotes s.toList)

/-! Decimal rendering of a `u64` (`format!("{}", value)`): standard
decimal, most significant digit first, no leading zeros, no sign. -/

/-- Decimal digit characters of `n`, most significant first. -/
def natDigits (n : Nat) : List Char :=
  if _h : n < 10 then [Char.ofNat (48 + n)]
  else natDigits (n / 10) ++ [Char.ofNat (48 + n % 10)]
termination_by n
decreasing_by exact Nat.div_lt_self (by omega) (by omega)

/-! ## JSON values and the serde pipeline (`interchange.rs`)

`serde_json` documents are modelled by the `Json` tree below.  Number
literals are modelled as non-negative integers: no deserializer in this
development accepts a fractional or negative literal, so those reject
exactly like any other unhandled shape.  Writing a `Json` value out as
text and re-reading it is the identity on `Json` (serde_json's contract),
so `write_to` followed by `from_json_reader` is modelled as the
`Json`-level composition `Interchange.fromJson ∘ Interchange.toJson`. -/

inductive Json where
  | null
  | bool (b : Bool)
  | num (n : Nat)
  | str (s : String)
  | arr (elems : List Json)
  | obj (fields : List (String × Json))

/-- `Vec<T>` deserialization: every element must deserialize, in order. -/
def mapMOption {α β : Type} (f : α → Option β) : List α → Option (List β)
  | [] => some []
  | a :: as => do
      let b ← f a
      let bs ← mapMOption f as
      pure (b :: bs)

/-- Value of the first field with the given name, if any. -/
def getField (kvs : List (String × Json)) (name : String) : Option Json :=
  (kvs.find? (fun kv => kv.1 == name)).map (fun kv => kv.2)

/-- No field name occurs twice (serde errors on a duplicate field). -/
def distinctKeys : List String → Bool
  | [] => true
  | k :: ks => !(ks.contains k) && distinctKeys ks

/-- The field-loop checks of a `#[serde(deny_unknown_fields)]` struct:
every key must belong to the schema and no key may repeat.  (serde errors
at the first unknown or duplicate key; this model only distinguishes
success from failure, so the check order is immaterial.) -/
def fieldsOk (schema : List String) (kvs : List (String × Json)) : Bool :=
  distinctKeys (kvs.map Prod.fst) &&
    (kvs.map Prod.fst).all (fun k => schema.contains k)

/-- A required struct field: missing or undeserializable rejects. -/
def deserializeReqField {α : Type} (f : Json → Option α)
    (kvs : List (String × Json)) (name : String) : Option α :=
  (getField kvs name).bind f

/-- `Vec<T>` deserialization from a JSON value: must be an array. -/
def deserializeVec {α : Type} (f : Json → Option α) : Json → Option (List α)
  | .arr items => mapMOption f items
  | _ => none

/-- `Option<T>` deserialization from a JSON value: `null` is `None`;
anything else must deserialize as `T`. -/
def deserializeOptVal {α : Type} (f : Json → Option α) : Json → Option (Option α)
  | .null => some none
  | j => (f j).map some

/-- An `Option<T>` struct field: a missing field and an explicit `null`
both give `None`; anything else must deserialize as `T`. -/
def deserializeOptField {α : Type} (f : Json → Option α)
    (kvs : List (String × Json)) (name : String) : Option (Option α) :=
  match getField kvs name with
  | none => some none
  | some j => deserializeOptVal f j

/-! ### Leaf (de)serializers -/

/-- `quoted::deserialize` (`serde_utils.rs`, lines 297–310):
`deserialize_any` with `QuotedIntVisitor`.  The visitor implements *only*
`visit_str`, so for every non-string JSON shape serde's default visitor
method returns a type error. -/
def quotedDeserialize : Json → Option Nat
  | .str s => QuotedIntVisitor.visit_str s
  | _ => none

/-- `quoted::serialize` (`serde_utils.rs`): `format!("{}", value)` as a
JSON string. -/
def quotedSerialize (n : Nat) : Json := .str (String.mk (natDigits n))

/-- The variant-identifier map of `InterchangeFormat` under
`#[serde(rename_all = "lowercase")]`: `"minimal"` and `"complete"`. -/
def InterchangeFormat.fromName (s : String) : Option InterchangeFormat :=
  if s = "minimal" then some .Minimal
  else if s = "complete" then some .Complete
  else none

/-- Derived `Deserialize` for `InterchangeFormat` under serde_json:
`deserialize_enum` accepts a JSON string naming a unit variant, and also
the externally-tagged map form with exactly one entry whose key names the
variant and whose value deserializes `()` — which for serde_json means
exactly `null` (`VariantAccess::unit_variant`).  Every other shape is a
type error. -/
def InterchangeFormat.deserialize : Json → Option InterchangeFormat
  | .str s => InterchangeFormat.fromName s
  | .obj [(s, .null)] => InterchangeFormat.fromName s
  | _ => none

/-- Derived `Serialize` for `InterchangeFormat`. -/
def InterchangeFormat.serialize : InterchangeFormat → Json
  | .Minimal => .str "minimal"
  | .Complete => .str "complete"

/-! Hex coding for roots and public keys.  The value of a hex string is
accumulated most significant nibble first; only lowercase digits are
accepted. -/

/-- Value of one lowercase hex digit. -/
def hexDigitVal (c : Char) : Option Nat :=
  if '0' ≤ c ∧ c ≤ '9' then some (c.toNat - 48)
  else if 'a' ≤ c ∧ c ≤ 'f' then some (c.toNat - 87)
  else none

/-- Value of a lowercase hex string (most significant first). -/
def hexVal : List Char → Nat → Option Nat
  | [], acc => some acc
  | c :: cs, acc =>
    match hexDigitVal c with
    | some d => hexVal cs (acc * 16 + d)
    | none => none

/-- Lowercase hex digit character for a nibble. -/
def hexChar (m : Nat) : Char :=
  if m < 10 then Char.ofNat (48 + m) else Char.ofNat (87 + m)

/-- Fixed-width lowercase hex rendering: `len` nibbles, big-endian. -/
def natToHex : Nat → Nat → List Char
  | 0, _ => []
  | len + 1, n => natToHex len (n / 16) ++ [hexChar (n % 16)]

/-- Modelled from the spec: the `Deserialize` impl for `Hash256`
(`ethereum_types::H256`, not under `src/`) accepts exactly `0x` followed
by 64 lowercase hex characters ("Root fields are exactly `0x` + 64
lowercase hex characters"). -/
def Hash256.deserialize : Json → Option Hash256
  | .str s =>
    match s.toList with
    | '0' :: 'x' :: rest => if rest.length = 64 then hexVal rest 0 else none
    | _ => none
  | _ => none

/-- Modelled from the spec: `Serialize` for `Hash256` renders `0x` plus
64 lowercase hex characters. -/
def Hash256.serialize (h : Hash256) : Json :=
  .str (String.mk ('0' :: 'x' :: natToHex 64 h))

/-- Modelled from the spec: the `Deserialize` impl for `PublicKey` (the
`bls` crate, not under `src/`) accepts `0x` followed by the 96 lowercase
hex characters of a 48-byte compressed BLS key. -/
def PublicKey.deserialize : Json → Option PublicKey
  | .str s =>
    match s.toList with
    | '0' :: 'x' :: rest => if rest.length = 96 then hexVal rest 0 else none
    | _ => none
  | _ => none

/-- Modelled from the spec: `Serialize` for `PublicKey` renders `0x` plus
96 lowercase hex characters. -/
def PublicKey.serialize (pk : PublicKey) : Json :=
  .str (String.mk ('0' :: 'x' :: natToHex 96 pk))

/-- Modelled from the spec: the `Deserialize` impls for `Slot` and
`Epoch` (`consensus/types/src/slot_epoch.rs`, not under `src/`) accept a
decimal string or a bare integer fitting in `u64` ("Numeric fields are
serialized as JSON strings ... and accepted either quoted or bare on
input"). -/
def SlotEpoch.deserialize : Json → Option Nat
  | .str s => parseU64 s.toList
  | .num n => if n ≤ U64_MAX then some n else none
  | _ => none

/-- Modelled from the spec: `Serialize` for `Slot`/`Epoch` renders the
decimal digits as a JSON string. -/
def SlotEpoch.serialize (n : Nat) : Json := .str (String.mk (natDigits n))

/-- `Option<T>` field serialization: `None` becomes `null`. -/
def serializeOptWith {α : Type} (f : α → Json) : Option α → Json
  | none => .null
  | some x => f x

/-! ### Schemas (the field names of each `deny_unknown_fields` struct) -/

def topLevelFields : List String := ["metadata", "data"]

def metadataFields : List String :=
  ["interchange_format", "interchange_format_version",
   "genesis_validators_root"]

def minimalDataFields : List String :=
  ["pubkey", "last_signed_block_slot",
   "last_signed_attestation_source_epoch",
   "last_signed_attestation_target_epoch"]

def completeDataFields : List String :=
  ["pubkey", "signed_blocks", "signed_attestations"]

def signedBlockFields : List String := ["slot", "signing_root"]

def signedAttestationFields : List String :=
  ["source_epoch", "target_epoch", "signing_root"]

/-! ### Derived struct (de)serializers -/

/-- Derived `Deserialize` for `InterchangeMetadata`
(`deny_unknown_fields`). -/
def InterchangeMetadata.deserialize (j : Json) : Option InterchangeMetadata :=
  match j with
  | .obj kvs =>
    if fieldsOk metadataFields kvs then do
      let fmt ← deserializeReqField InterchangeFormat.deserialize kvs
        "interchange_format"
      let ver ← deserializeReqField quotedDeserialize kvs
        "interchange_format_version"
      let root ← deserializeReqField Hash256.deserialize kvs
        "genesis_validators_root"
      pure ⟨fmt, ver, root⟩
    else none
  | _ => none

/-- Derived `Deserialize` for `MinimalInterchangeData`
(`deny_unknown_fields`). -/
def MinimalInterchangeData.deserialize (j : Json) :
    Option MinimalInterchangeData :=
  match j with
  | .obj kvs =>
    if fieldsOk minimalDataFields kvs then do
      let pk ← deserializeReqField PublicKey.deserialize kvs "pubkey"
      let bs ← deserializeOptField SlotEpoch.deserialize kvs
        "last_signed_block_slot"
      let src ← deserializeOptField SlotEpoch.deserialize kvs
        "last_signed_attestation_source_epoch"
      let tgt ← deserializeOptField SlotEpoch.deserialize kvs
        "last_signed_attestation_target_epoch"
      pure ⟨pk, bs, src, tgt⟩
    else none
  | _ => none

/-- Derived `Deserialize` for `SignedBlock` (`deny_unknown_fields`). -/
def SignedBlock.deserialize (j : Json) : Option SignedBlock :=
  match j with
  | .obj kvs =>
    if fieldsOk signedBlockFields kvs then do
      let slot ← deserializeReqField SlotEpoch.deserialize kvs "slot"
      let root ← deserializeOptField Hash256.deserialize kvs "signing_root"
      pure ⟨slot, root⟩
    else none
  | _ => none

/-- Derived `Deserialize` for `SignedAttestation`
(`deny_unknown_fields`). -/
def SignedAttestation.deserialize (j : Json) : Option SignedAttestation :=
  match j with
  | .obj kvs =>
    if fieldsOk signedAttestationFields kvs then do
      let src ← deserializeReqField SlotEpoch.deserialize kvs "source_epoch"
      let tgt ← deserializeReqField SlotEpoch.deserialize kvs "target_epoch"
      let root ← deserializeOptField Hash256.deserialize kvs "signing_root"
      pure ⟨src, tgt, root⟩
    else none
  | _ => none

/-- Derived `Deserialize` for `CompleteInterchangeData`
(`deny_unknown_fields`). -/
def CompleteInterchangeData.deserialize (j : Json) :
    Option CompleteInterchangeData :=
  match j with
  | .obj kvs =>
    if fieldsOk completeDataFields kvs then do
      let pk ← deserializeReqField PublicKey.deserialize kvs "pubkey"
      let blocks ← deserializeReqField (deserializeVec SignedBlock.deserialize)
        kvs "signed_blocks"
      let atts ← deserializeReqField
        (deserializeVec SignedAttestation.deserialize) kvs "signed_attestations"
      pure ⟨pk, blocks, atts⟩
    else none
  | _ => none

/-- `Interchange::from_json_str` / `from_json_reader`
(`interchange.rs`, lines 76–102): deserialize `PreInterchange` — a
`deny_unknown_fields` struct holding the metadata and the raw `data`
value — then parse `data` as the record-list variant selected by
`metadata.interchange_format`. -/
def Interchange.fromJson (j : Json) : Option Interchange :=
  match j with
  | .obj kvs =>
    if fieldsOk topLevelFields kvs then do
      let mdJson ← getField kvs "metadata"
      let md ← InterchangeMetadata.deserialize mdJson
      let dataJson ← getField kvs "data"
      match md.interchange_format with
      | .Minimal =>
        match dataJson with
        | .arr items => do
            let records ← mapMOption MinimalInterchangeData.deserialize items
            pure ⟨md, .Minimal records⟩
        | _ => none
      | .Complete =>
        match dataJson with
        | .arr items => do
            let records ← mapMOption CompleteInterchangeData.deserialize items
            pure ⟨md, .Complete records⟩
        | _ => none
    else none
  | _ => none

/-! ### Derived serializers (`Interchange::write_to`) -/

/-- Derived `Serialize` for `InterchangeMetadata`. -/
def InterchangeMetadata.serialize (md : InterchangeMetadata) : Json :=
  .obj [("interchange_format", md.interchange_format.serialize),
        ("interchange_format_version",
          quotedSerialize md.interchange_format_version),
        ("genesis_validators_root",
          Hash256.serialize md.genesis_validators_root)]

/-- Derived `Serialize` for `MinimalInterchangeData`. -/
def MinimalInterchangeData.serialize (m : MinimalInterchangeData) : Json :=
  .obj [("pubkey", PublicKey.serialize m.pubkey),
        ("last_signed_block_slot",
          serializeOptWith SlotEpoch.serialize m.last_signed_block_slot),
        ("last_signed_attestation_source_epoch",
          serializeOptWith SlotEpoch.serialize
            m.last_signed_attestation_source_epoch),
        ("last_signed_attestation_target_epoch",
          serializeOptWith SlotEpoch.serialize
            m.last_signed_attestation_target_epoch)]

/-- Derived `Serialize` for `SignedBlock`. -/
def SignedBlock.serialize (b : SignedBlock) : Json :=
  .obj [("slot", SlotEpoch.serialize b.slot),
        ("signing_root", serializeOptWith Hash256.serialize b.signing_root)]

/-- Derived `Serialize` for `SignedAttestation`. -/
def SignedAttestation.serialize (a : SignedAttestation) : Json :=
  .obj [("source_epoch", SlotEpoch.serialize a.source_epoch),
        ("target_epoch", SlotEpoch.serialize a.target_epoch),
        ("signing_root", serializeOptWith Hash256.serialize a.signing_root)]

/-- Derived `Serialize` for `CompleteInterchangeData`. -/
def CompleteInterchangeData.serialize (c : CompleteInterchangeData) : Json :=
  .obj [("pubkey", PublicKey.serialize c.pubkey),
        ("signed_blocks", .arr (c.signed_blocks.map SignedBlock.serialize)),
        ("signed_attestations",
          .arr (c.signed_attestations.map SignedAttestation.serialize))]

/-- `Interchange::write_to` (`interchange.rs`, lines 87–89): the derived
`Serialize` for `Interchange`; the untagged `InterchangeData` serializes
as the bare record array. -/
def Interchange.toJson (i : Interchange) : Json :=
  .obj [("metadata", i.metadata.serialize),
        ("data",
          match i.data with
          | .Minimal m => .arr (m.map MinimalInterchangeData.serialize)
          | .Complete c => .arr (c.map CompleteInterchangeData.serialize))]

/-! ### Round-trip (C9) -/

/-- All `u64` fields in range. -/
def wfOptU64 (o : Option Nat) : Bool := o.all (fun x => decide (x ≤ U64_MAX))

/-- An optional 32-byte root in range. -/
def wfOptHash (o : Option Nat) : Bool := o.all (fun x => decide (x < 16 ^ 64))

/-- Field bounds of a `MinimalInterchangeData` (a Rust value satisfies
these by construction: `u64` fields, 48-byte key). -/
def MinimalInterchangeData.wf (m : MinimalInterchangeData) : Bool :=
  decide (m.pubkey < 16 ^ 96) && wfOptU64 m.last_signed_block_slot &&
    wfOptU64 m.last_signed_attestation_source_epoch &&
    wfOptU64 m.last_signed_attestation_target_epoch

/-- Field bounds of a `SignedBlock`. -/
def SignedBlock.wf (b : SignedBlock) : Bool :=
  decide (b.slot ≤ U64_MAX) && wfOptHash b.signing_root

/-- Field bounds of a `SignedAttestation`. -/
def SignedAttestation.wf (a : SignedAttestation) : Bool :=
  decide (a.source_epoch ≤ U64_MAX) && decide (a.target_epoch ≤ U64_MAX) &&
    wfOptHash a.signing_root

/-- Field bounds of a `CompleteInterchangeData`. -/
def CompleteInterchangeData.wf (c : CompleteInterchangeData) : Bool :=
  decide (c.pubkey < 16 ^ 96) && c.signed_blocks.all SignedBlock.wf &&
    c.signed_attestations.all SignedAttestation.wf

/-- Field bounds of an `InterchangeMetadata`. -/
def InterchangeMetadata.wf (md : InterchangeMetadata) : Bool :=
  decide (md.interchange_format_version ≤ U64_MAX) &&
    decide (md.genesis_validators_root < 16 ^ 64)

/-- Field bounds of a whole `Interchange`. -/
def Interchange.wf (i : Interchange) : Bool :=
  i.metadata.wf &&
    match i.data with
    | .Minimal m => m.all MinimalInterchangeData.wf
    | .Complete c => c.all CompleteInterchangeData.wf

/-- The data variant agrees with the metadata format tag. -/
def Interchange.formatMatches (i : Interchange) : Bool :=
  match i.metadata.interchange_format, i.data with
  | .Minimal, .Minimal _ => true
  | .Complete, .Complete _ => true
  | _, _ => false

/-! Basic facts about `optionLe` and `optionMax`. -/

theorem optionLe_refl (x : Option Nat) : optionLe x x = true := by
  cases x <;> simp [optionLe]

theorem optionMax_isMaxOf (x y : Option Nat) : IsMaxOf (optionMax x y) x y := by
  cases x with
  | none =>
    cases y with
    | none => exact ⟨Or.inl rfl, rfl, rfl⟩
    | some b => exact ⟨Or.inr rfl, rfl, by simp [optionMax, optionLe]⟩
  | some a =>
    cases y with
    | none =>
      refine ⟨Or.inl ?_, ?_, ?_⟩ <;> simp [optionMax, optionLe]
    | some b =>
      by_cases h : a ≤ b
      · refine ⟨Or.inr ?_, ?_, ?_⟩ <;> simp [optionMax, optionLe, h]
      · refine ⟨Or.inl ?_, ?_, ?_⟩ <;> simp [optionMax, optionLe, h, Nat.le_of_not_le h]

theorem optionMax_comm (x y : Option Nat) : optionMax x y = optionMax y x := by
  cases x with
  | none => cases y <;> simp [optionMax, optionLe]
  | some a =>
    cases y with
    | none => simp [optionMax, optionLe]
    | some b =>
      by_cases h : a ≤ b
      · by_cases h' : b ≤ a
        · simp [optionMax, optionLe, h, h', Nat.le_antisymm h h']
        · simp [optionMax, optionLe, h, h']
      · simp [optionMax, optionLe, h, Nat.le_of_not_le h]

theorem optionMax_self (x : Option Nat) : optionMax x x = x := by
  cases x <;> simp [optionMax, optionLe]

theorem optionMax_none_right (x : Option Nat) : optionMax x none = x := by
  cases x <;> simp [optionMax, optionLe]

theorem optionMax_none_left (x : Option Nat) : optionMax none x = x := by
  cases x <;> simp [optionMax, optionLe]

theorem optionMax_isSome (x y : Option Nat) :
    (optionMax x y).isSome = (x.isSome || y.isSome) := by
  cases x <;> cases y <;> simp [optionMax, optionLe]
  next a b => by_cases h : a ≤ b <;> simp [h]

/-- **C1.** `LowerBound::update` is the pointwise maximum: each field of
`a.update b` is the maximum of the corresponding fields of `a` and `b` in
the order where `None` is below every `Some`, and a field of the result is
present exactly when it is present in at least one argument (so no present
field is ever lost). -/
theorem LowerBound.update_is_pointwise_max (a b : LowerBound) :
    IsMaxOf (a.update b).block_proposal_slot
      a.block_proposal_slot b.block_proposal_slot ∧
    IsMaxOf (a.update b).attestation_source_epoch
      a.attestation_source_epoch b.attestation_source_epoch ∧
    IsMaxOf (a.update b).attestation_target_epoch
      a.attestation_target_epoch b.attestation_target_epoch ∧
    (a.update b).block_proposal_slot.isSome
      = (a.block_proposal_slot.isSome || b.block_proposal_slot.isSome) ∧
    (a.update b).attestation_source_epoch.isSome
      = (a.attestation_source_epoch.isSome || b.attestation_source_epoch.isSome) ∧
    (a.update b).attestation_target_epoch.isSome
      = (a.attestation_target_epoch.isSome || b.attestation_target_epoch.isSome) := by
  refine ⟨optionMax_isMaxOf _ _, optionMax_isMaxOf _ _, optionMax_isMaxOf _ _,
    optionMax_isSome _ _, optionMax_isSome _ _, optionMax_isSome _ _⟩

/-- **C5.** `LowerBound::update` never regresses a field: each field of
`lb.update u` dominates the corresponding field of `lb` (absent below
present), and a field present in `lb` stays present in `lb.update u`. -/
theorem LowerBound.update_monotone (lb u : LowerBound) :
    optionLe lb.block_proposal_slot (lb.update u).block_proposal_slot = true ∧
    optionLe lb.attestation_source_epoch
      (lb.update u).attestation_source_epoch = true ∧
    optionLe lb.attestation_target_epoch
      (lb.update u).attestation_target_epoch = true ∧
    (lb.block_proposal_slot.isSome = true →
      (lb.update u).block_proposal_slot.isSome = true) ∧
    (lb.attestation_source_epoch.isSome = true →
      (lb.update u).attestation_source_epoch.isSome = true) ∧
    (lb.attestation_target_epoch.isSome = true →
      (lb.update u).attestation_target_epoch.isSome = true) := by
  refine ⟨(optionMax_isMaxOf _ _).2.1, (optionMax_isMaxOf _ _).2.1,
    (optionMax_isMaxOf _ _).2.1, ?_, ?_, ?_⟩ <;>
    · intro h
      rw [LowerBound.update, optionMax_isSome]
      simp [h]

/-- Witness for C5 at a concrete pair of bounds. -/
theorem LowerBound.update_monotone_witness :
    ((⟨some 3, none, some 7⟩ : LowerBound).block_proposal_slot.isSome = true) ∧
    optionLe (⟨some 3, none, some 7⟩ : LowerBound).block_proposal_slot
      ((⟨some 3, none, some 7⟩ : LowerBound).update
        ⟨some 5, some 2, none⟩).block_proposal_slot = true ∧
    ((⟨some 3, none, some 7⟩ : LowerBound).update
        ⟨some 5, some 2, none⟩).block_proposal_slot.isSome = true := by
  refine ⟨by decide, (LowerBound.update_monotone ⟨some 3, none, some 7⟩
    ⟨some 5, some 2, none⟩).1, ?_⟩
  exact (LowerBound.update_monotone ⟨some 3, none, some 7⟩
    ⟨some 5, some 2, none⟩).2.2.2.1 (by decide)

/-- **C8.** `LowerBound::update` is commutative and idempotent, and
`LowerBound::default()` (all fields absent) is a two-sided identity. -/
theorem LowerBound.update_comm_idem_identity (a b : LowerBound) :
    a.update b = b.update a ∧
    a.update a = a ∧
    a.update LowerBound.default = a ∧
    LowerBound.default.update a = a := by
  refine ⟨?_, ?_, ?_, ?_⟩
  · simp [LowerBound.update, optionMax_comm]
  · simp [LowerBound.update, optionMax_self]
  · simp [LowerBound.update, LowerBound.default, optionMax_none_right]
  · simp [LowerBound.update, LowerBound.default, optionMax_none_left]

theorem listSetEq_iff {α : Type} [DecidableEq α] (l1 l2 : List α) :
    listSetEq l1 l2 = true ↔ (∀ x, x ∈ l1 ↔ x ∈ l2) := by
  simp only [listSetEq, Bool.and_eq_true, List.all_eq_true, List.contains,
    List.elem_iff]
  constructor
  · rintro ⟨h1, h2⟩ x
    exact ⟨fun hx => h1 x hx, fun hx => h2 x hx⟩
  · intro h
    exact ⟨fun x hx => (h x).1 hx, fun x hx => (h x).2 hx⟩

/-- **C2, counterexample.** `equiv` is *not* multiset-sensitive: an
interchange listing the same record twice is `equiv` to one listing it
once, although the record occurs twice in the first list and once in the
second, so the lists are unequal as multisets. -/
theorem Interchange.equiv_not_multiset_sensitive :
    Interchange.equiv ⟨exMetadata, .Minimal [exRecord, exRecord]⟩
        ⟨exMetadata, .Minimal [exRecord]⟩ = true ∧
    [exRecord, exRecord].count exRecord = 2 ∧
    [exRecord].count exRecord = 1 := by
  refine ⟨by decide, by decide, by decide⟩

/-- **C2, amended.** `Interchange::equiv` returns `true` iff the metadata
are equal and the two data lists are of the same variant and contain the
same *set* of records: order-insensitive and also insensitive to how many
times each record occurs. -/
theorem Interchange.equiv_iff_set_eq (a b : Interchange) :
    Interchange.equiv a b = true ↔
      a.metadata = b.metadata ∧
      ((∃ m1 m2, a.data = .Minimal m1 ∧ b.data = .Minimal m2 ∧
          ∀ x, x ∈ m1 ↔ x ∈ m2) ∨
       (∃ c1 c2, a.data = .Complete c1 ∧ b.data = .Complete c2 ∧
          ∀ x, x ∈ c1 ↔ x ∈ c2)) := by
  obtain ⟨ma, da⟩ := a
  obtain ⟨mb, db⟩ := b
  cases da <;> cases db <;>
    simp [Interchange.equiv, listSetEq_iff, and_comm, decide_eq_true_eq]

/-! Facts about digits and decimal parsing. -/

theorem digitChar_isDigit {m : Nat} (h : m < 10) :
    (Char.ofNat (48 + m)).isDigit = true := by
  interval_cases m <;> decide

theorem digitVal_digitChar {m : Nat} (h : m < 10) :
    digitVal (Char.ofNat (48 + m)) = m := by
  interval_cases m <;> decide

theorem isDigit_ne_quote {c : Char} (h : c.isDigit = true) : c ≠ '"' := by
  intro he; rw [he] at h; exact absurd h (by decide)

theorem isDigit_ne_plus {c : Char} (h : c.isDigit = true) : c ≠ '+' := by
  intro he; rw [he] at h; exact absurd h (by decide)

theorem natDigits_ne_nil (n : Nat) : natDigits n ≠ [] := by
  rw [natDigits]
  split <;> simp

theorem natDigits_all_digits (n : Nat) : (natDigits n).all Char.isDigit = true := by
  induction n using Nat.strong_induction_on with
  | _ n ih =>
    rw [natDigits]
    split
    · next h => simp [digitChar_isDigit h]
    · next h =>
      have h10 : n / 10 < n := Nat.div_lt_self (by omega) (by omega)
      simp only [List.all_append, Bool.and_eq_true]
      exact ⟨ih _ h10, by simp [digitChar_isDigit (Nat.mod_lt n (by omega))]⟩

theorem decimalVal_append_digit (ds : List Char) (c : Char) :
    decimalVal (ds ++ [c]) = (decimalVal ds) * 10 + digitVal c := by
  simp [decimalVal, List.foldl_append, decStep]

theorem decimalVal_natDigits (n : Nat) : decimalVal (natDigits n) = n := by
  induction n using Nat.strong_induction_on with
  | _ n ih =>
    rw [natDigits]
    split
    · next h =>
      simp [decimalVal, decStep, digitVal_digitChar h]
    · next h =>
      have h10 : n / 10 < n := Nat.div_lt_self (by omega) (by omega)
      rw [decimalVal_append_digit, ih _ h10, digitVal_digitChar (Nat.mod_lt n (by omega))]
      omega

theorem le_foldl_decStep (cs : List Char) (acc : Nat) :
    acc ≤ cs.foldl decStep acc := by
  induction cs generalizing acc with
  | nil => exact Nat.le_refl _
  | cons c cs ih =>
    calc acc ≤ decStep acc c := by simp [decStep]; omega
      _ ≤ (c :: cs).foldl decStep acc := by simpa using ih (decStep acc c)

theorem parseU64Digits_eq_some_iff (cs : List Char) (acc n : Nat)
    (hacc : acc ≤ U64_MAX) :
    parseU64Digits cs acc = some n ↔
      (cs.all Char.isDigit = true ∧ cs.foldl decStep acc = n ∧ n ≤ U64_MAX) := by
  induction cs generalizing acc with
  | nil =>
    simp only [parseU64Digits, Option.some.injEq, List.all_nil, List.foldl_nil,
      true_and]
    constructor
    · rintro rfl; exact ⟨rfl, hacc⟩
    · rintro ⟨rfl, _⟩; rfl
  | cons c cs ih =>
    simp only [parseU64Digits, List.all_cons, Bool.and_eq_true, List.foldl_cons]
    by_cases hd : c.isDigit
    · simp only [hd, if_true, true_and]
      by_cases hof : acc * 10 + digitVal c ≤ U64_MAX
      · rw [if_pos hof, ih _ hof]
        simp [decStep]
      · rw [if_neg hof]
        constructor
        · intro h; exact absurd h (by simp)
        · rintro ⟨_, hfold, hle⟩
          exfalso
          have hmono := le_foldl_decStep cs (decStep acc c)
          rw [hfold] at hmono
          simp only [decStep] at hmono
          omega
    · simp [hd]

theorem parseU64_nil : parseU64 [] = none := rfl

theorem parseU64_plus (rest : List Char) :
    parseU64 ('+' :: rest)
      = if rest.isEmpty then none else parseU64Digits rest 0 := rfl

theorem parseU64_cons {c : Char} (rest : List Char) (h : c ≠ '+') :
    parseU64 (c :: rest) = parseU64Digits (c :: rest) 0 := by
  simp [parseU64, h]

theorem parseU64_eq_some_iff (cs : List Char) (n : Nat) :
    parseU64 cs = some n ↔
      ∃ ds, (cs = ds ∨ cs = '+' :: ds) ∧ ds ≠ [] ∧
        ds.all Char.isDigit = true ∧ decimalVal ds = n ∧ n ≤ U64_MAX := by
  match cs with
  | [] =>
    rw [parseU64_nil]
    constructor
    · intro h; exact absurd h (by simp)
    · rintro ⟨ds, hds, hne, _⟩
      rcases hds with h | h
      · exact (hne h.symm).elim
      · exact absurd h (by simp)
  | c :: rest =>
    by_cases hplus : c = '+'
    · subst hplus
      rw [parseU64_plus]
      by_cases hemp : rest.isEmpty
      · rw [if_pos hemp]
        have : rest = [] := List.isEmpty_iff.mp hemp
        subst this
        constructor
        · intro h; exact absurd h (by simp)
        · rintro ⟨ds, hds, hne, hdig, _⟩
          rcases hds with h | h
          · rw [← h] at hdig
            simp [List.all_cons] at hdig
          · injection h with _ h2; exact (hne h2.symm).elim
      · rw [if_neg hemp]
        rw [parseU64Digits_eq_some_iff rest 0 n (by simp [U64_MAX])]
        constructor
        · rintro ⟨hdig, hval, hle⟩
          exact ⟨rest, Or.inr rfl, fun h => by simp [h] at hemp, hdig, hval, hle⟩
        · rintro ⟨ds, hds, hne, hdig, hval, hle⟩
          rcases hds with h | h
          · rw [← h] at hdig
            simp [List.all_cons] at hdig
          · injection h with _ h2
            subst h2
            exact ⟨hdig, hval, hle⟩
    · rw [parseU64_cons rest hplus]
      rw [parseU64Digits_eq_some_iff (c :: rest) 0 n (by simp [U64_MAX])]
      constructor
      · rintro ⟨hdig, hval, hle⟩
        exact ⟨c :: rest, Or.inl rfl, by simp, hdig, hval, hle⟩
      · rintro ⟨ds, hds, hne, hdig, hval, hle⟩
        rcases hds with h | h
        · subst h; exact ⟨hdig, hval, hle⟩
        · injection h with h1 _
          exact absurd h1 hplus

/-! Behaviour of the quote-stripping step. -/

theorem stripQuotes_of_all_digits (ds : List Char) (hne : ds ≠ [])
    (hdig : ds.all Char.isDigit = true) : stripQuotes ds = ds := by
  match ds with
  | c :: rest =>
    have hc : c.isDigit = true := by
      simp [List.all_cons] at hdig
      exact hdig.1
    rw [stripQuotes, if_neg]
    rintro ⟨-, hhead, -⟩
    simp only [List.head?] at hhead
    exact isDigit_ne_quote hc (by injection hhead)

theorem stripQuotes_quoted (ds : List Char) (hne : ds ≠ []) :
    stripQuotes ( '"' :: ds ++ [ '"' ]) = ds := by
  rw [stripQuotes, if_pos]
  · simp [List.dropLast_concat]
  · refine ⟨?_, rfl, ?_⟩
    · have : 0 < ds.length := List.length_pos.mpr hne
      simp only [List.cons_append, List.length_cons, List.length_append,
        List.length_cons, List.length_nil]
      omega
    · rw [show ( '"' :: ds ++ [ '"' ]) = ( '"' :: ds) ++ [ '"' ] from by simp]
      exact List.getLast?_concat _

theorem parseU64_of_digits (ds : List Char) (hne : ds ≠ [])
    (hdig : ds.all Char.isDigit = true) (hle : decimalVal ds ≤ U64_MAX) :
    parseU64 ds = some (decimalVal ds) :=
  (parseU64_eq_some_iff ds (decimalVal ds)).mpr
    ⟨ds, Or.inl rfl, hne, hdig, rfl, hle⟩

/-- **C10.** The visitor strips exactly one extra layer of literal
double-quote characters: for every `u64` value `n`, the string whose
character content is `"`, the decimal digits of `n`, and `"` deserializes
to `n`, the same value as the plain digit string. -/
theorem QuotedIntVisitor.visit_str_strips_embedded_quotes (n : Nat)
    (h : n ≤ U64_MAX) :
    QuotedIntVisitor.visit_str (String.mk ( '"' :: natDigits n ++ [ '"' ])) = some n ∧
    QuotedIntVisitor.visit_str (String.mk (natDigits n)) = some n := by
  have hval : decimalVal (natDigits n) = n := decimalVal_natDigits n
  constructor
  · rw [QuotedIntVisitor.visit_str]
    show parseU64 (stripQuotes ( '"' :: natDigits n ++ [ '"' ])) = some n
    rw [stripQuotes_quoted _ (natDigits_ne_nil n),
      parseU64_of_digits _ (natDigits_ne_nil n) (natDigits_all_digits n)
        (by rw [hval]; exact h), hval]
  · rw [QuotedIntVisitor.visit_str]
    show parseU64 (stripQuotes (natDigits n)) = some n
    rw [stripQuotes_of_all_digits _ (natDigits_ne_nil n) (natDigits_all_digits n),
      parseU64_of_digits _ (natDigits_ne_nil n) (natDigits_all_digits n)
        (by rw [hval]; exact h), hval]

/-- Witness for C10 at `n = 123`: the five-character content `"123"`
deserializes to 123, as does the plain string `123`. -/
theorem QuotedIntVisitor.visit_str_strips_embedded_quotes_witness :
    (123 ≤ U64_MAX) ∧
    QuotedIntVisitor.visit_str (String.mk ( '"' :: natDigits 123 ++ [ '"' ])) = some 123 ∧
    QuotedIntVisitor.visit_str (String.mk (natDigits 123)) = some 123 := by
  refine ⟨by decide, ?_, ?_⟩
  · exact (QuotedIntVisitor.visit_str_strips_embedded_quotes 123 (by decide)).1
  · exact (QuotedIntVisitor.visit_str_strips_embedded_quotes 123 (by decide)).2

/-- **C6, counterexample.** The deserializer does *not* reject leading
zeros or a leading `+`: `"007"` parses to `7` and `"+5"` parses to `5`,
both accepted although the claim says they are rejected. -/
theorem QuotedIntVisitor.visit_str_accepts_leading_zeros_and_plus :
    QuotedIntVisitor.visit_str "007" = some 7 ∧
    QuotedIntVisitor.visit_str "+5" = some 5 := by
  constructor <;> rfl

/-- **C6, amended.** After the quote-stripping step, the deserializer
succeeds exactly on a non-empty run of decimal digits optionally preceded
by a single `+`, whose value is at most `2^64 - 1`; leading zeros are
accepted.  Everything else — in particular a leading `-`, an empty string
and out-of-range values — is rejected. -/
theorem QuotedIntVisitor.visit_str_eq_some_iff (s : String) (n : Nat) :
    QuotedIntVisitor.visit_str s = some n ↔
      ∃ ds, (stripQuotes s.toList = ds ∨ stripQuotes s.toList = '+' :: ds) ∧
        ds ≠ [] ∧ ds.all Char.isDigit = true ∧ decimalVal ds = n ∧
        n ≤ U64_MAX := by
  rw [QuotedIntVisitor.visit_str]
  exact parseU64_eq_some_iff (stripQuotes s.toList) n

/-! ### Hex coding facts -/

theorem hexDigitVal_hexChar {m : Nat} (h : m < 16) :
    hexDigitVal (hexChar m) = some m := by
  interval_cases m <;> decide

theorem natToHex_length (len : Nat) : ∀ n : Nat, (natToHex len n).length = len := by
  induction len with
  | zero => intro n; simp [natToHex]
  | succ len ih => intro n; simp [natToHex, ih]

theorem hexVal_append (l1 l2 : List Char) (acc : Nat) :
    hexVal (l1 ++ l2) acc =
      match hexVal l1 acc with
      | some v => hexVal l2 v
      | none => none := by
  induction l1 generalizing acc with
  | nil => simp [hexVal]
  | cons c cs ih =>
    rw [List.cons_append, hexVal]
    cases hc : hexDigitVal c with
    | none => simp [hexVal, hc]
    | some d => simp [hexVal, hc, ih]

theorem hexVal_natToHex (len : Nat) : ∀ n acc : Nat, n < 16 ^ len →
    hexVal (natToHex len n) acc = some (acc * 16 ^ len + n) := by
  induction len with
  | zero =>
    intro n acc h
    interval_cases n
    simp [natToHex, hexVal]
  | succ len ih =>
    intro n acc h
    rw [natToHex, hexVal_append]
    have h16 : n / 16 < 16 ^ len := by
      rw [Nat.div_lt_iff_lt_mul (by norm_num)]
      calc n < 16 ^ (len + 1) := h
        _ = 16 ^ len * 16 := by rw [pow_succ]
    rw [ih (n / 16) acc h16]
    show hexVal [hexChar (n % 16)] (acc * 16 ^ len + n / 16) = _
    rw [hexVal, hexDigitVal_hexChar (Nat.mod_lt n (by norm_num))]
    show some ((acc * 16 ^ len + n / 16) * 16 + n % 16) = _
    have harith : (acc * 16 ^ len + n / 16) * 16 + n % 16
        = acc * 16 ^ (len + 1) + n := by
      rw [pow_succ]
      have h2 : 16 * (n / 16) + n % 16 = n := Nat.div_add_mod n 16
      calc (acc * 16 ^ len + n / 16) * 16 + n % 16
          = acc * (16 ^ len * 16) + (16 * (n / 16) + n % 16) := by ring
        _ = acc * (16 ^ len * 16) + n := by rw [h2]
    rw [harith]

/-! ### Leaf round-trips -/

theorem hash256_roundtrip (h : Hash256) (hlt : h < 16 ^ 64) :
    Hash256.deserialize (Hash256.serialize h) = some h := by
  rw [Hash256.serialize]
  show (if (natToHex 64 h).length = 64 then hexVal (natToHex 64 h) 0 else none)
      = some h
  rw [if_pos (natToHex_length 64 h), hexVal_natToHex 64 h 0 hlt]
  simp

theorem publicKey_roundtrip (pk : PublicKey) (hlt : pk < 16 ^ 96) :
    PublicKey.deserialize (PublicKey.serialize pk) = some pk := by
  rw [PublicKey.serialize]
  show (if (natToHex 96 pk).length = 96 then hexVal (natToHex 96 pk) 0 else none)
      = some pk
  rw [if_pos (natToHex_length 96 pk), hexVal_natToHex 96 pk 0 hlt]
  simp

theorem slotEpoch_roundtrip (n : Nat) (h : n ≤ U64_MAX) :
    SlotEpoch.deserialize (SlotEpoch.serialize n) = some n := by
  rw [SlotEpoch.serialize]
  show parseU64 (natDigits n) = some n
  rw [parseU64_of_digits _ (natDigits_ne_nil n) (natDigits_all_digits n)
    (by rw [decimalVal_natDigits]; exact h), decimalVal_natDigits]

theorem quotedDeserialize_quotedSerialize (n : Nat) (h : n ≤ U64_MAX) :
    quotedDeserialize (quotedSerialize n) = some n := by
  rw [quotedSerialize]
  show QuotedIntVisitor.visit_str (String.mk (natDigits n)) = some n
  rw [QuotedIntVisitor.visit_str]
  show parseU64 (stripQuotes (natDigits n)) = some n
  rw [stripQuotes_of_all_digits _ (natDigits_ne_nil n) (natDigits_all_digits n),
    parseU64_of_digits _ (natDigits_ne_nil n) (natDigits_all_digits n)
      (by rw [decimalVal_natDigits]; exact h), decimalVal_natDigits]

/-- The variant-name map sends exactly `"minimal"` and `"complete"` to a
format; every other string is an unknown-variant error. -/
theorem InterchangeFormat.fromName_eq_some_iff (s : String)
    (f : InterchangeFormat) :
    InterchangeFormat.fromName s = some f ↔
      (s = "minimal" ∧ f = .Minimal) ∨ (s = "complete" ∧ f = .Complete) := by
  rw [InterchangeFormat.fromName]
  by_cases h1 : s = "minimal"
  · subst h1
    rw [if_pos rfl]
    constructor
    · intro h
      injection h with h
      exact Or.inl ⟨rfl, h.symm⟩
    · rintro (⟨-, rfl⟩ | ⟨hs, rfl⟩)
      · rfl
      · exact absurd hs (by decide)
  · rw [if_neg h1]
    by_cases h2 : s = "complete"
    · subst h2
      rw [if_pos rfl]
      constructor
      · intro h
        injection h with h
        exact Or.inr ⟨rfl, h.symm⟩
      · rintro (⟨hs, rfl⟩ | ⟨-, rfl⟩)
        · exact absurd hs (by decide)
        · rfl
    · rw [if_neg h2]
      constructor
      · intro h
        exact absurd h (by simp)
      · rintro (⟨hs, -⟩ | ⟨hs, -⟩)
        · exact absurd hs h1
        · exact absurd hs h2

/-- **C7, counterexample.** serde_json's derived enum deserializer also
accepts the externally-tagged map form of a unit variant:
`{"minimal": null}` deserializes to `Minimal` although it is not one of
the two lowercase string literals, so "succeeds exactly for the two
lowercase string literals" is false of the program. -/
theorem InterchangeFormat.deserialize_accepts_tagged_map_form :
    InterchangeFormat.deserialize (.obj [("minimal", Json.null)])
      = some InterchangeFormat.Minimal ∧
    (Json.obj [("minimal", Json.null)] = Json.str "minimal" → False) ∧
    (Json.obj [("minimal", Json.null)] = Json.str "complete" → False) :=
  ⟨rfl, fun h => Json.noConfusion h, fun h => Json.noConfusion h⟩

/-- **C7, amended.** Deserializing the `interchange_format` field
succeeds exactly for the lowercase string literals `"minimal"` and
`"complete"` and for their externally-tagged unit-variant map forms
`{"minimal": null}` and `{"complete": null}` (mapping to `Minimal` and
`Complete` respectively); every other input — in particular any other
string, such as the capitalized `"Minimal"` — is rejected. -/
theorem InterchangeFormat.deserialize_eq_some_iff :
    (∀ (j : Json) (f : InterchangeFormat),
      InterchangeFormat.deserialize j = some f ↔
        ((j = .str "minimal" ∨ j = .obj [("minimal", .null)]) ∧
          f = .Minimal) ∨
        ((j = .str "complete" ∨ j = .obj [("complete", .null)]) ∧
          f = .Complete)) ∧
    InterchangeFormat.deserialize (.str "Minimal") = none := by
  constructor
  · intro j f
    cases j with
    | str s =>
      rw [show InterchangeFormat.deserialize (.str s)
          = InterchangeFormat.fromName s from rfl,
        InterchangeFormat.fromName_eq_some_iff]
      simp
    | null =>
      rw [show InterchangeFormat.deserialize .null = none from rfl]
      simp
    | bool b =>
      rw [show InterchangeFormat.deserialize (.bool b) = none from rfl]
      simp
    | num n =>
      rw [show InterchangeFormat.deserialize (.num n) = none from rfl]
      simp
    | arr l =>
      rw [show InterchangeFormat.deserialize (.arr l) = none from rfl]
      simp
    | obj kvs =>
      match kvs with
      | [] =>
        rw [show InterchangeFormat.deserialize (.obj []) = none from rfl]
        simp
      | [(s, v)] =>
        cases v with
        | null =>
          rw [show InterchangeFormat.deserialize (.obj [(s, .null)])
              = InterchangeFormat.fromName s from rfl,
            InterchangeFormat.fromName_eq_some_iff]
          simp
        | bool b =>
          rw [show InterchangeFormat.deserialize (.obj [(s, .bool b)])
              = none from rfl]
          simp
        | num n =>
          rw [show InterchangeFormat.deserialize (.obj [(s, .num n)])
              = none from rfl]
          simp
        | str s2 =>
          rw [show InterchangeFormat.deserialize (.obj [(s, .str s2)])
              = none from rfl]
          simp
        | arr l =>
          rw [show InterchangeFormat.deserialize (.obj [(s, .arr l)])
              = none from rfl]
          simp
        | obj kvs2 =>
          rw [show InterchangeFormat.deserialize (.obj [(s, .obj kvs2)])
              = none from rfl]
          simp
      | (s, v) :: kv2 :: rest =>
        rw [show InterchangeFormat.deserialize
            (.obj ((s, v) :: kv2 :: rest)) = none from by cases v <;> rfl]
        simp
  · rfl

/-- **C4 (code evaluation).** The `interchange_format_version`
deserializer accepts the quoted-string form of a value and emits the
quoted-string form on serialization, but *rejects* a bare JSON integer:
`QuotedIntVisitor` implements only `visit_str`, so serde's default
`visit_u64` returns a type error for the input `5`, contradicting the
visitor's own `expecting` message ("a quoted or unquoted integer"). -/
theorem quotedDeserialize_rejects_bare_integer :
    quotedDeserialize (Json.num 5) = none ∧
    quotedDeserialize (Json.str "5") = some 5 ∧
    quotedSerialize 5 = Json.str "5" := by
  refine ⟨rfl, rfl, ?_⟩
  rw [quotedSerialize, show natDigits 5 = ['5'] from by rw [natDigits]; decide]

/-! ### Unknown fields reject (C3) -/

theorem fieldsOk_eq_false_of_unknown {schema : List String}
    {kvs : List (String × Json)} {k : String}
    (hk : k ∈ kvs.map Prod.fst) (hns : k ∉ schema) :
    fieldsOk schema kvs = false := by
  have hall : (kvs.map Prod.fst).all (fun k' => schema.contains k') = false :=
    List.all_eq_false.mpr ⟨k, hk, by simpa [List.contains, List.elem_iff] using hns⟩
  rw [fieldsOk, hall]
  simp

theorem getField_some_mem {kvs : List (String × Json)} {name : String}
    {j : Json} (h : getField kvs name = some j) : name ∈ kvs.map Prod.fst := by
  rw [getField] at h
  cases hf : kvs.find? (fun kv => kv.1 == name) with
  | none => rw [hf] at h; cases h
  | some kv =>
    have hmem := List.mem_of_find?_eq_some hf
    have hpred : kv.1 = name := by simpa using List.find?_some hf
    exact List.mem_map.mpr ⟨kv, hmem, hpred⟩

theorem mapMOption_eq_none_of_mem {α β : Type} (f : α → Option β)
    {l : List α} {x : α} (hx : x ∈ l) (hf : f x = none) :
    mapMOption f l = none := by
  induction l with
  | nil => cases hx
  | cons a as ih =>
    rcases List.mem_cons.mp hx with rfl | h
    · simp [mapMOption, hf]
    · rw [mapMOption]
      cases hfa : f a with
      | none => simp
      | some b => simp [ih h]

theorem minimalData_unknown_field_rejected
    {rkvs : List (String × Json)} {k : String}
    (hk : k ∈ rkvs.map Prod.fst) (hns : k ∉ minimalDataFields) :
    MinimalInterchangeData.deserialize (.obj rkvs) = none := by
  simp only [MinimalInterchangeData.deserialize]
  rw [fieldsOk_eq_false_of_unknown hk hns]
  simp

theorem completeData_unknown_field_rejected
    {rkvs : List (String × Json)} {k : String}
    (hk : k ∈ rkvs.map Prod.fst) (hns : k ∉ completeDataFields) :
    CompleteInterchangeData.deserialize (.obj rkvs) = none := by
  simp only [CompleteInterchangeData.deserialize]
  rw [fieldsOk_eq_false_of_unknown hk hns]
  simp

theorem signedBlock_unknown_field_rejected
    {bkvs : List (String × Json)} {k : String}
    (hk : k ∈ bkvs.map Prod.fst) (hns : k ∉ signedBlockFields) :
    SignedBlock.deserialize (.obj bkvs) = none := by
  simp only [SignedBlock.deserialize]
  rw [fieldsOk_eq_false_of_unknown hk hns]
  simp

theorem signedAttestation_unknown_field_rejected
    {bkvs : List (String × Json)} {k : String}
    (hk : k ∈ bkvs.map Prod.fst) (hns : k ∉ signedAttestationFields) :
    SignedAttestation.deserialize (.obj bkvs) = none := by
  simp only [SignedAttestation.deserialize]
  rw [fieldsOk_eq_false_of_unknown hk hns]
  simp

theorem metadata_unknown_field_rejected
    {mkvs : List (String × Json)} {k : String}
    (hk : k ∈ mkvs.map Prod.fst) (hns : k ∉ metadataFields) :
    InterchangeMetadata.deserialize (.obj mkvs) = none := by
  simp only [InterchangeMetadata.deserialize]
  rw [fieldsOk_eq_false_of_unknown hk hns]
  simp

theorem completeData_none_of_block_fails
    {rkvs : List (String × Json)} {bitems : List Json} {b : Json}
    (hblocks : getField rkvs "signed_blocks" = some (.arr bitems))
    (hb : b ∈ bitems) (hbad : SignedBlock.deserialize b = none) :
    CompleteInterchangeData.deserialize (.obj rkvs) = none := by
  simp only [CompleteInterchangeData.deserialize]
  by_cases hok : fieldsOk completeDataFields rkvs
  · rw [if_pos hok]
    have hstep : deserializeReqField (deserializeVec SignedBlock.deserialize)
        rkvs "signed_blocks" = none := by
      rw [deserializeReqField, hblocks]
      exact mapMOption_eq_none_of_mem _ hb hbad
    cases hpk : deserializeReqField PublicKey.deserialize rkvs "pubkey" with
    | none => simp [hpk]
    | some pk => simp [hpk, hstep]
  · rw [if_neg hok]

theorem completeData_none_of_att_fails
    {rkvs : List (String × Json)} {aitems : List Json} {a : Json}
    (hatts : getField rkvs "signed_attestations" = some (.arr aitems))
    (ha : a ∈ aitems) (hbad : SignedAttestation.deserialize a = none) :
    CompleteInterchangeData.deserialize (.obj rkvs) = none := by
  simp only [CompleteInterchangeData.deserialize]
  by_cases hok : fieldsOk completeDataFields rkvs
  · rw [if_pos hok]
    have hstep : deserializeReqField
        (deserializeVec SignedAttestation.deserialize) rkvs
        "signed_attestations" = none := by
      rw [deserializeReqField, hatts]
      exact mapMOption_eq_none_of_mem _ ha hbad
    cases hpk : deserializeReqField PublicKey.deserialize rkvs "pubkey" with
    | none => simp [hpk]
    | some pk =>
      cases hbl : deserializeReqField (deserializeVec SignedBlock.deserialize)
          rkvs "signed_blocks" with
      | none => simp [hpk, hbl]
      | some bl => simp [hpk, hbl, hstep]
  · rw [if_neg hok]

/-- If some element of the `data` array deserializes under neither record
schema, the whole document fails to parse. -/
theorem Interchange.fromJson_obj_none_of_record_fails
    {kvs : List (String × Json)} {items : List Json} {r : Json}
    (hdata : getField kvs "data" = some (.arr items)) (hr : r ∈ items)
    (hmin : MinimalInterchangeData.deserialize r = none)
    (hcom : CompleteInterchangeData.deserialize r = none) :
    Interchange.fromJson (.obj kvs) = none := by
  simp only [Interchange.fromJson]
  by_cases hok : fieldsOk topLevelFields kvs
  · rw [if_pos hok]
    cases hmd : getField kvs "metadata" with
    | none => simp [hmd]
    | some mdJson =>
      cases hmdv : InterchangeMetadata.deserialize mdJson with
      | none => simp [hmd, hmdv]
      | some md =>
        cases hfmt : md.interchange_format with
        | Minimal =>
          simp only [hmd, hmdv, hdata, Option.bind_eq_bind, Option.some_bind,
            hfmt]
          rw [mapMOption_eq_none_of_mem _ hr hmin]
          simp
        | Complete =>
          simp only [hmd, hmdv, hdata, Option.bind_eq_bind, Option.some_bind,
            hfmt]
          rw [mapMOption_eq_none_of_mem _ hr hcom]
          simp
  · rw [if_neg hok]

/-- If the metadata parses and some element of the `data` array fails to
deserialize under the record schema its format selects, the whole
document fails to parse. -/
theorem Interchange.fromJson_obj_none_of_format_record_fails
    {kvs : List (String × Json)} {mdJson : Json} {md : InterchangeMetadata}
    {items : List Json} {r : Json}
    (hmdget : getField kvs "metadata" = some mdJson)
    (hmdok : InterchangeMetadata.deserialize mdJson = some md)
    (hdata : getField kvs "data" = some (.arr items)) (hr : r ∈ items)
    (hmin : md.interchange_format = .Minimal →
      MinimalInterchangeData.deserialize r = none)
    (hcom : md.interchange_format = .Complete →
      CompleteInterchangeData.deserialize r = none) :
    Interchange.fromJson (.obj kvs) = none := by
  simp only [Interchange.fromJson]
  by_cases hok : fieldsOk topLevelFields kvs
  · rw [if_pos hok]
    cases hfmt : md.interchange_format with
    | Minimal =>
      simp only [hmdget, hmdok, hdata, Option.bind_eq_bind, Option.some_bind,
        hfmt]
      rw [mapMOption_eq_none_of_mem _ hr (hmin hfmt)]
      simp
    | Complete =>
      simp only [hmdget, hmdok, hdata, Option.bind_eq_bind, Option.some_bind,
        hfmt]
      rw [mapMOption_eq_none_of_mem _ hr (hcom hfmt)]
      simp
  · rw [if_neg hok]

/-- **C3.** Parsing rejects every unknown field name: a document fails to
parse whenever the top-level object, the metadata object, a data record
(judged against the schema the parsed metadata format selects, so e.g.
`"signed_blocks"` inside a minimal-format record rejects; when the
metadata is absent or malformed the document already fails), a
signed-block entry, or a signed-attestation entry contains a field name
outside its schema. -/
theorem Interchange.fromJson_rejects_unknown_fields
    (kvs : List (String × Json)) :
    (∀ k, k ∈ kvs.map Prod.fst → k ∉ topLevelFields →
      Interchange.fromJson (.obj kvs) = none) ∧
    (∀ mkvs k, getField kvs "metadata" = some (.obj mkvs) →
      k ∈ mkvs.map Prod.fst → k ∉ metadataFields →
      Interchange.fromJson (.obj kvs) = none) ∧
    (getField kvs "metadata" = none →
      Interchange.fromJson (.obj kvs) = none) ∧
    (∀ mdJson, getField kvs "metadata" = some mdJson →
      InterchangeMetadata.deserialize mdJson = none →
      Interchange.fromJson (.obj kvs) = none) ∧
    (∀ mdJson md items rkvs k, getField kvs "metadata" = some mdJson →
      InterchangeMetadata.deserialize mdJson = some md →
      getField kvs "data" = some (.arr items) →
      Json.obj rkvs ∈ items → k ∈ rkvs.map Prod.fst →
      (md.interchange_format = .Minimal → k ∉ minimalDataFields) →
      (md.interchange_format = .Complete → k ∉ completeDataFields) →
      Interchange.fromJson (.obj kvs) = none) ∧
    (∀ items rkvs k, getField kvs "data" = some (.arr items) →
      Json.obj rkvs ∈ items → k ∈ rkvs.map Prod.fst →
      k ∉ minimalDataFields → k ∉ completeDataFields →
      Interchange.fromJson (.obj kvs) = none) ∧
    (∀ items rkvs bitems bkvs k, getField kvs "data" = some (.arr items) →
      Json.obj rkvs ∈ items →
      getField rkvs "signed_blocks" = some (.arr bitems) →
      Json.obj bkvs ∈ bitems → k ∈ bkvs.map Prod.fst →
      k ∉ signedBlockFields →
      Interchange.fromJson (.obj kvs) = none) ∧
    (∀ items rkvs aitems akvs k, getField kvs "data" = some (.arr items) →
      Json.obj rkvs ∈ items →
      getField rkvs "signed_attestations" = some (.arr aitems) →
      Json.obj akvs ∈ aitems → k ∈ akvs.map Prod.fst →
      k ∉ signedAttestationFields →
      Interchange.fromJson (.obj kvs) = none) := by
  refine ⟨?_, ?_, ?_, ?_, ?_, ?_, ?_, ?_⟩
  · intro k hk hns
    simp only [Interchange.fromJson]
    rw [fieldsOk_eq_false_of_unknown hk hns]
    simp
  · intro mkvs k hmd hk hns
    simp only [Interchange.fromJson]
    by_cases hok : fieldsOk topLevelFields kvs
    · rw [if_pos hok]
      simp only [hmd, Option.bind_eq_bind, Option.some_bind]
      rw [metadata_unknown_field_rejected hk hns]
      simp
    · rw [if_neg hok]
  · intro hmd
    simp only [Interchange.fromJson]
    by_cases hok : fieldsOk topLevelFields kvs
    · rw [if_pos hok]
      simp [hmd]
    · rw [if_neg hok]
  · intro mdJson hmd hbad
    simp only [Interchange.fromJson]
    by_cases hok : fieldsOk topLevelFields kvs
    · rw [if_pos hok]
      simp [hmd, hbad]
    · rw [if_neg hok]
  · intro mdJson md items rkvs k hmdget hmdok hdata hr hk hmin hcom
    exact Interchange.fromJson_obj_none_of_format_record_fails hmdget hmdok
      hdata hr
      (fun hf => minimalData_unknown_field_rejected hk (hmin hf))
      (fun hf => completeData_unknown_field_rejected hk (hcom hf))
  · intro items rkvs k hdata hr hk hnm hnc
    exact Interchange.fromJson_obj_none_of_record_fails hdata hr
      (minimalData_unknown_field_rejected hk hnm)
      (completeData_unknown_field_rejected hk hnc)
  · intro items rkvs bitems bkvs k hdata hr hblocks hb hk hns
    exact Interchange.fromJson_obj_none_of_record_fails hdata hr
      (minimalData_unknown_field_rejected
        (getField_some_mem hblocks) (by decide))
      (completeData_none_of_block_fails hblocks hb
        (signedBlock_unknown_field_rejected hk hns))
  · intro items rkvs aitems akvs k hdata hr hatts ha hk hns
    exact Interchange.fromJson_obj_none_of_record_fails hdata hr
      (minimalData_unknown_field_rejected
        (getField_some_mem hatts) (by decide))
      (completeData_none_of_att_fails hatts ha
        (signedAttestation_unknown_field_rejected hk hns))

/-- Witness for C3: a top-level object with the extra field `"extra"`
fails to parse. -/
theorem Interchange.fromJson_rejects_unknown_fields_witness :
    ("extra" ∈ ([("metadata", Json.null), ("data", Json.null),
        ("extra", Json.null)] : List (String × Json)).map Prod.fst) ∧
    ("extra" ∉ topLevelFields) ∧
    Interchange.fromJson (.obj [("metadata", Json.null), ("data", Json.null),
        ("extra", Json.null)]) = none := by
  refine ⟨by decide, by decide, ?_⟩
  exact (Interchange.fromJson_rejects_unknown_fields
    [("metadata", Json.null), ("data", Json.null), ("extra", Json.null)]).1
    "extra" (by decide) (by decide)

theorem deserializeOptVal_slotEpoch (o : Option Nat) (h : wfOptU64 o = true) :
    deserializeOptVal SlotEpoch.deserialize
      (serializeOptWith SlotEpoch.serialize o) = some o := by
  cases o with
  | none => rfl
  | some x =>
    have hx : x ≤ U64_MAX := by simpa [wfOptU64] using h
    show (SlotEpoch.deserialize (SlotEpoch.serialize x)).map some = some (some x)
    rw [slotEpoch_roundtrip x hx]
    rfl

theorem deserializeOptVal_hash (o : Option Nat) (h : wfOptHash o = true) :
    deserializeOptVal Hash256.deserialize
      (serializeOptWith Hash256.serialize o) = some o := by
  cases o with
  | none => rfl
  | some x =>
    have hx : x < 16 ^ 64 := by simpa [wfOptHash] using h
    show (Hash256.deserialize (Hash256.serialize x)).map some = some (some x)
    rw [hash256_roundtrip x hx]
    rfl

theorem mapMOption_map {α β : Type} (f : β → Option α) (g : α → β)
    (l : List α) (h : ∀ x ∈ l, f (g x) = some x) :
    mapMOption f (l.map g) = some l := by
  induction l with
  | nil => rfl
  | cons a as ih =>
    simp [mapMOption, h a (by simp),
      ih (fun x hx => h x (List.mem_cons.mpr (Or.inr hx)))]

theorem signedBlock_roundtrip (b : SignedBlock)
    (hwf : b.wf = true) : SignedBlock.deserialize b.serialize = some b := by
  obtain ⟨s, r⟩ := b
  simp only [SignedBlock.wf, Bool.and_eq_true, decide_eq_true_eq] at hwf
  obtain ⟨hs, hr⟩ := hwf
  simp [SignedBlock.serialize, SignedBlock.deserialize, fieldsOk, distinctKeys,
    signedBlockFields, deserializeReqField, deserializeOptField, getField,
    List.find?, slotEpoch_roundtrip s hs,
    deserializeOptVal_hash r hr]

theorem signedAttestation_roundtrip (a : SignedAttestation)
    (hwf : a.wf = true) :
    SignedAttestation.deserialize a.serialize = some a := by
  obtain ⟨s, t, r⟩ := a
  simp only [SignedAttestation.wf, Bool.and_eq_true, decide_eq_true_eq] at hwf
  obtain ⟨⟨hs, ht⟩, hr⟩ := hwf
  simp [SignedAttestation.serialize, SignedAttestation.deserialize, fieldsOk,
    distinctKeys, signedAttestationFields, deserializeReqField,
    deserializeOptField, getField, List.find?,
    slotEpoch_roundtrip s hs, slotEpoch_roundtrip t ht,
    deserializeOptVal_hash r hr]

theorem minimalData_roundtrip
    (m : MinimalInterchangeData) (hwf : m.wf = true) :
    MinimalInterchangeData.deserialize m.serialize = some m := by
  obtain ⟨p, b, s, t⟩ := m
  simp only [MinimalInterchangeData.wf, Bool.and_eq_true,
    decide_eq_true_eq] at hwf
  obtain ⟨⟨⟨hp, hb⟩, hs⟩, ht⟩ := hwf
  simp [MinimalInterchangeData.serialize, MinimalInterchangeData.deserialize,
    fieldsOk, distinctKeys, minimalDataFields, deserializeReqField,
    deserializeOptField, getField, List.find?,
    publicKey_roundtrip p hp,
    deserializeOptVal_slotEpoch b hb, deserializeOptVal_slotEpoch s hs,
    deserializeOptVal_slotEpoch t ht]

theorem completeData_roundtrip
    (c : CompleteInterchangeData) (hwf : c.wf = true) :
    CompleteInterchangeData.deserialize c.serialize = some c := by
  obtain ⟨p, blocks, atts⟩ := c
  simp only [CompleteInterchangeData.wf, Bool.and_eq_true,
    decide_eq_true_eq] at hwf
  obtain ⟨⟨hp, hbl⟩, hat⟩ := hwf
  have h1 : mapMOption SignedBlock.deserialize
      (blocks.map SignedBlock.serialize) = some blocks :=
    mapMOption_map _ _ _ (fun x hx =>
      signedBlock_roundtrip x (List.all_eq_true.mp hbl x hx))
  have h2 : mapMOption SignedAttestation.deserialize
      (atts.map SignedAttestation.serialize) = some atts :=
    mapMOption_map _ _ _ (fun x hx =>
      signedAttestation_roundtrip x (List.all_eq_true.mp hat x hx))
  simp [CompleteInterchangeData.serialize, CompleteInterchangeData.deserialize,
    fieldsOk, distinctKeys, completeDataFields, deserializeReqField,
    deserializeVec, getField, List.find?,
    publicKey_roundtrip p hp, h1, h2]

theorem metadata_roundtrip (md : InterchangeMetadata)
    (hwf : md.wf = true) :
    InterchangeMetadata.deserialize md.serialize = some md := by
  obtain ⟨fmt, ver, root⟩ := md
  simp only [InterchangeMetadata.wf, Bool.and_eq_true, decide_eq_true_eq] at hwf
  obtain ⟨hv, hr⟩ := hwf
  have hf : InterchangeFormat.deserialize (InterchangeFormat.serialize fmt)
      = some fmt := by cases fmt <;> rfl
  simp [InterchangeMetadata.serialize, InterchangeMetadata.deserialize,
    fieldsOk, distinctKeys, metadataFields, deserializeReqField, getField,
    List.find?, hf, quotedDeserialize_quotedSerialize ver hv,
    hash256_roundtrip root hr]

/-- **C9.** Serialization/parsing round-trip: for every `Interchange`
whose data variant agrees with its metadata format tag (and whose fields
are in the ranges a Rust value has by construction), `write_to` followed
by `from_json_str`/`from_json_reader` succeeds and returns the original
`Interchange`. -/
theorem Interchange.fromJson_toJson_roundtrip (i : Interchange)
    (hwf : i.wf = true) (hfmt : i.formatMatches = true) :
    Interchange.fromJson (Interchange.toJson i) = some i := by
  obtain ⟨md, data⟩ := i
  cases data with
  | Minimal m =>
    simp only [Interchange.wf, Bool.and_eq_true] at hwf
    obtain ⟨hmd, hrecs⟩ := hwf
    cases hf : md.interchange_format with
    | Complete => simp [Interchange.formatMatches, hf] at hfmt
    | Minimal =>
      have hmapm : mapMOption MinimalInterchangeData.deserialize
          (m.map MinimalInterchangeData.serialize) = some m :=
        mapMOption_map _ _ _ (fun x hx =>
          minimalData_roundtrip x
            (List.all_eq_true.mp hrecs x hx))
      simp [Interchange.toJson, Interchange.fromJson, fieldsOk, distinctKeys,
        topLevelFields, getField, List.find?,
        metadata_roundtrip md hmd, hf, hmapm]
  | Complete c =>
    simp only [Interchange.wf, Bool.and_eq_true] at hwf
    obtain ⟨hmd, hrecs⟩ := hwf
    cases hf : md.interchange_format with
    | Minimal => simp [Interchange.formatMatches, hf] at hfmt
    | Complete =>
      have hmapc : mapMOption CompleteInterchangeData.deserialize
          (c.map CompleteInterchangeData.serialize) = some c :=
        mapMOption_map _ _ _ (fun x hx =>
          completeData_roundtrip x
            (List.all_eq_true.mp hrecs x hx))
      simp [Interchange.toJson, Interchange.fromJson, fieldsOk, distinctKeys,
        topLevelFields, getField, List.find?,
        metadata_roundtrip md hmd, hf, hmapc]

/-- Witness for C9 at a concrete one-record minimal interchange. -/
theorem Interchange.fromJson_toJson_roundtrip_witness :
    (Interchange.wf ⟨⟨.Minimal, 5, 66⟩, .Minimal [⟨1, some 10, some 1, some 2⟩]⟩
      = true) ∧
    (Interchange.formatMatches
      ⟨⟨.Minimal, 5, 66⟩, .Minimal [⟨1, some 10, some 1, some 2⟩]⟩ = true) ∧
    Interchange.fromJson (Interchange.toJson
        ⟨⟨.Minimal, 5, 66⟩, .Minimal [⟨1, some 10, some 1, some 2⟩]⟩)
      = some ⟨⟨.Minimal, 5, 66⟩, .Minimal [⟨1, some 10, some 1, some 2⟩]⟩ :=
  ⟨by decide, by decide,
    Interchange.fromJson_toJson_roundtrip _ (by decide) (by decide)⟩
